import Mathlib

/-!
Verification development for the urban-green-routing repository.

The development shallowly embeds the vector-processing and routing core of
the repository: the pandas/geopandas table operations of
`src/utils/geometry.py` and the routing-graph construction and edge
retrieval of `src/green_routing.py`.  Machine floats are modelled as exact
rationals extended with the IEEE special values NaN and the two infinities,
which is enough to settle every claim about NaN propagation, fill rules and
rounding; the geometric kernel (shapely buffering, intersection) is external
native code and is abstracted, since no claim depends on the coordinates of
a produced geometry.
-/

/- The Batteries rational arithmetic operations are `@[irreducible]`, which
blocks `decide` on concrete tables; re-open them for reduction so that
witnesses and counterexamples evaluate. -/
set_option allowUnsafeReducibility true
attribute [local semireducible] Rat.mul Rat.inv Rat.add Rat.sub

namespace Ugr

/-- Model of a pandas float64 cell value: an exact rational standing for a
finite float, or one of the IEEE special values NaN, plus infinity and
minus infinity. -/
inductive PFloat where
  | fin (q : ℚ)
  | nan
  | pinf
  | ninf
deriving DecidableEq, Repr

namespace PFloat

/-- IEEE subtraction on the value model: NaN propagates, infinities of the
same sign cancel to NaN. -/
def sub : PFloat → PFloat → PFloat
  | nan, _ => nan
  | _, nan => nan
  | fin a, fin b => fin (a - b)
  | pinf, pinf => nan
  | pinf, _ => pinf
  | ninf, ninf => nan
  | ninf, _ => ninf
  | fin _, pinf => ninf
  | fin _, ninf => pinf

/-- IEEE multiplication on the value model: NaN propagates, an infinity
times zero is NaN. -/
def mul : PFloat → PFloat → PFloat
  | nan, _ => nan
  | _, nan => nan
  | fin a, fin b => fin (a * b)
  | pinf, pinf => pinf
  | pinf, ninf => ninf
  | ninf, pinf => ninf
  | ninf, ninf => pinf
  | pinf, fin b => if 0 < b then pinf else if b < 0 then ninf else nan
  | fin a, pinf => if 0 < a then pinf else if a < 0 then ninf else nan
  | ninf, fin b => if 0 < b then ninf else if b < 0 then pinf else nan
  | fin a, ninf => if 0 < a then ninf else if a < 0 then pinf else nan

/-- IEEE division on the value model: NaN propagates, zero over zero is
NaN, a nonzero finite numerator over zero is a signed infinity (this is
what pandas produces for `area_y / area_x` when the buffer area is zero),
a finite numerator over an infinity is zero. -/
def div : PFloat → PFloat → PFloat
  | nan, _ => nan
  | _, nan => nan
  | fin a, fin b =>
      if b ≠ 0 then fin (a / b)
      else if 0 < a then pinf
      else if a < 0 then ninf
      else nan
  | fin _, pinf => fin 0
  | fin _, ninf => fin 0
  | pinf, fin b => if 0 ≤ b then pinf else ninf
  | ninf, fin b => if 0 ≤ b then ninf else pinf
  | pinf, _ => nan
  | ninf, _ => nan

/-- Model of `Series.fillna(0)` on one cell: NaN becomes 0, every other
value (infinities included) is left alone. -/
def fillna0 : PFloat → PFloat
  | nan => fin 0
  | x => x

/-- Whether the cell is NaN; `Series.min`/`Series.max` skip such cells
(pandas default `skipna=True`). -/
def isNaN : PFloat → Bool
  | nan => true
  | _ => false

end PFloat

/-- Round half to even on rationals: the rounding used by the Python
`round` builtin and by numpy/pandas `Series.round`. -/
def rhe (q : ℚ) : ℤ :=
  if q - ⌊q⌋ < 1 / 2 then ⌊q⌋
  else if 1 / 2 < q - ⌊q⌋ then ⌊q⌋ + 1
  else if ⌊q⌋ % 2 = 0 then ⌊q⌋ else ⌊q⌋ + 1

/-- Model of `Series.round(4)` on a finite value: scale by 10^4, round half
to even, scale back. -/
def round4Q (q : ℚ) : ℚ := (rhe (q * 10000) : ℚ) / 10000

/-- Model of `Series.round(4)` on one cell: NaN and the infinities round to
themselves. -/
def PFloat.round4 : PFloat → PFloat
  | .fin q => .fin (round4Q q)
  | x => x

/-- Minimum of two non-NaN cells under the IEEE order used by pandas
aggregation (minus infinity below every finite value, plus infinity above);
NaN arms are unreachable after the skipna filter but keep the function
total. -/
def pfMin2 : PFloat → PFloat → PFloat
  | .nan, x => x
  | x, .nan => x
  | .ninf, _ => .ninf
  | _, .ninf => .ninf
  | .pinf, x => x
  | x, .pinf => x
  | .fin a, .fin b => .fin (min a b)

/-- Maximum of two non-NaN cells, mirror of `pfMin2`. -/
def pfMax2 : PFloat → PFloat → PFloat
  | .nan, x => x
  | x, .nan => x
  | .pinf, _ => .pinf
  | _, .pinf => .pinf
  | .ninf, x => x
  | x, .ninf => x
  | .fin a, .fin b => .fin (max a b)

/-- Model of `Series.min()` with the pandas default `skipna=True`: NaN
cells are ignored; an empty or all-NaN column yields NaN. -/
def seriesMin (xs : List PFloat) : PFloat :=
  match xs.filter (fun x => !x.isNaN) with
  | [] => .nan
  | y :: ys => ys.foldl pfMin2 y

/-- Model of `Series.max()` with the pandas default `skipna=True`. -/
def seriesMax (xs : List PFloat) : PFloat :=
  match xs.filter (fun x => !x.isNaN) with
  | [] => .nan
  | y :: ys => ys.foldl pfMax2 y

/-- Model of a geopandas geometry cell.  The coordinates live in external
shapely native code and are abstracted into an opaque shape tag plus the
two validity flags the repository's checks read (`notnull`, `is_valid`) and
the planar area that `calculate_area` reads. -/
structure Geometry where
  isNull : Bool
  isValid : Bool
  shape : ℕ
  area : PFloat
deriving DecidableEq, Repr

/-- The shapely buffer kernel (`geometry.buffer(distance)`, source line 244
of `src/utils/geometry.py`) is external native code: its output is a fresh
non-null valid polygon whose coordinates no claim inspects, so the shape
tag is carried through unchanged. -/
def bufferGeom (g : Geometry) (_distance : ℚ) : Geometry :=
  { isNull := false, isValid := true, shape := g.shape, area := g.area }

/-- One record of a GeoDataFrame: a geometry cell plus the non-geometry
columns as an association list from column name to cell value. -/
structure Row where
  geometry : Geometry
  attrs : List (String × PFloat)
deriving DecidableEq, Repr

/-- Setting a cell in an association list: overwrite the first binding of
the key in place, append the column when absent (the pandas behaviour of
`df[col] = series` for one row). -/
def setPairs : List (String × PFloat) → String → PFloat → List (String × PFloat)
  | [], k, v => [(k, v)]
  | (k', v') :: rest, k, v =>
      if k' = k then (k, v) :: rest else (k', v') :: setPairs rest k v

/-- Reading a cell.  An absent column is modelled as NaN: in the pipeline
every read column is present, and a left join with no match leaves NaN in
the joined column, which is exactly this default. -/
def Row.get (r : Row) (k : String) : PFloat :=
  match r.attrs.find? (fun p => p.1 = k) with
  | some p => p.2
  | none => .nan

/-- Writing a cell of a record. -/
def Row.set (r : Row) (k : String) (v : PFloat) : Row :=
  { r with attrs := setPairs r.attrs k v }

/-- Model of a GeoDataFrame: a coordinate reference system tag, the list of
non-geometry column names (the schema), and the records in table order. -/
structure Table where
  crs : ℕ
  cols : List String
  rows : List Row
deriving DecidableEq, Repr

/-- Adding a column name to a schema if it is not already present. -/
def addCol (cols : List String) (k : String) : List String :=
  if k ∈ cols then cols else cols ++ [k]

/-- The check `gdf.geometry.notnull().all()` used by the source validation
blocks. -/
def allNotNull (rows : List Row) : Bool :=
  rows.all (fun r => !r.geometry.isNull)

/-- The check `gdf.geometry.is_valid.all()` used by the source validation
blocks. -/
def allValid (rows : List Row) : Bool :=
  rows.all (fun r => r.geometry.isValid)

/-- Which table an error message blames: the input layer or the mask
layer. -/
inductive WhichTable where
  | input
  | mask
deriving DecidableEq, Repr

/-- The error values raised by the vector-processing functions, one
constructor per distinct `ValueError` message of the source. -/
inductive GeomErr where
  | invalidParameter
  | nullGeometries (t : WhichTable)
  | invalidGeometries (t : WhichTable)
  | crsMismatch
  | missingIdInput
  | missingIdJoin
deriving DecidableEq, Repr

/-- Embedding of `buffer_vector` (source lines 210-245 of
`src/utils/geometry.py`): reject a non-positive distance, return a copy of
an empty input unchanged, reject null then invalid geometries, otherwise
return a copy with every geometry buffered. -/
def buffer_vector (gdf : Table) (distance : ℚ) : Except GeomErr Table :=
  if distance ≤ 0 then .error .invalidParameter
  else if gdf.rows.isEmpty then .ok gdf
  else if !allNotNull gdf.rows then .error (.nullGeometries .input)
  else if !allValid gdf.rows then .error (.invalidGeometries .input)
  else .ok { gdf with
    rows := gdf.rows.map (fun r => { r with geometry := bufferGeom r.geometry distance }) }

/-- Model of the external `geopandas.clip` kernel called on source line
279: a record survives iff its geometry overlaps the union of the mask
geometries, so an empty mask (empty union) keeps nothing; the result keeps
the input schema and CRS.  The geometric overlap test itself is external
shapely code and is abstracted by a shape-tag comparison, on which no
claim depends. -/
def gpdClip (input mask : Table) : Table :=
  { crs := input.crs, cols := input.cols,
    rows :=
      if mask.rows.isEmpty then []
      else input.rows.filter
        (fun r => mask.rows.any (fun m => r.geometry.shape = m.geometry.shape)) }

/-- Embedding of `clipping_vectors` (source lines 247-280): CRS equality is
checked first, then null geometries of the input and the mask, then
invalid geometries of the input and the mask; the surviving case clips.
The model returns the clipped table that the source writes to the output
file. -/
def clipping_vectors (input_vector mask_vector : Table) : Except GeomErr Table :=
  if input_vector.crs ≠ mask_vector.crs then .error .crsMismatch
  else if !allNotNull input_vector.rows then .error (.nullGeometries .input)
  else if !allNotNull mask_vector.rows then .error (.nullGeometries .mask)
  else if !allValid input_vector.rows then .error (.invalidGeometries .input)
  else if !allValid mask_vector.rows then .error (.invalidGeometries .mask)
  else .ok (gpdClip input_vector mask_vector)

/-- Embedding of `calculate_area` (source lines 282-308): reject null then
invalid geometries, otherwise work on a copy, read each geometry's planar
area into an `area` column and fill missing values with 0. -/
def calculate_area (gdf : Table) : Except GeomErr Table :=
  if !allNotNull gdf.rows then .error (.nullGeometries .input)
  else if !allValid gdf.rows then .error (.invalidGeometries .input)
  else .ok { gdf with
    cols := addCol gdf.cols "area",
    rows := gdf.rows.map (fun r => r.set "area" (PFloat.fillna0 r.geometry.area)) }

/-- Embedding of `add_id` (source lines 194-208): work on a copy and set
the `id` column to 1..N in the table's row order (`range(1, len(gdf)+1)`);
the `to_file` side effect of the source (persisting the id'd table) is
outside the model.  `setIds i rows` numbers `rows` starting at `i`. -/
def setIds : ℕ → List Row → List Row
  | _, [] => []
  | i, r :: rs => r.set "id" (.fin (i : ℚ)) :: setIds (i + 1) rs

/-- The table-level `add_id`. -/
def add_id (gdf : Table) : Table :=
  { gdf with cols := addCol gdf.cols "id", rows := setIds 1 gdf.rows }

/-- Renaming a column inside one record (used by the merge model for the
pandas `_x`/`_y` suffixing of overlapping columns). -/
def Row.renameAttr (r : Row) (old new : String) : Row :=
  { r with attrs := r.attrs.map (fun p => if p.1 = old then (new, p.2) else p) }

/-- Model of `gdf.merge(join[[id, area]], on=id, how=left)` (source line
331) for the schemas the pipeline feeds it: when both sides carry an
`area` column the overlapping column is suffixed, `area_x` for the left
values and `area_y` for the incoming ones, otherwise the incoming column
keeps the name `area`; a left record with no key match keeps NaN in the
incoming column, a left record with several matches is repeated once per
match. -/
def mergeLeft (gdf jn : Table) : Table :=
  let overlap : Bool := decide ("area" ∈ gdf.cols)
  let rightName : String := if overlap then "area_y" else "area"
  let leftRows := if overlap then gdf.rows.map (fun r => r.renameAttr "area" "area_x") else gdf.rows
  let leftCols := if overlap then gdf.cols.map (fun c => if c = "area" then "area_x" else c) else gdf.cols
  { crs := gdf.crs, cols := leftCols ++ [rightName],
    rows := leftRows.flatMap (fun r =>
      match jn.rows.filter (fun j => j.get "id" = r.get "id") with
      | [] => [r.set rightName .nan]
      | ms => ms.map (fun j => r.set rightName (j.get "area"))) }

/-- Embedding of `join_by_attribute` (source lines 310-332): both tables
must carry an `id` column, the error message naming the layer that lacks
it; the join itself is a pandas left merge. -/
def join_by_attribute (gdf jn : Table) : Except GeomErr Table :=
  if "id" ∉ gdf.cols then .error .missingIdInput
  else if "id" ∉ jn.cols then .error .missingIdJoin
  else .ok (mergeLeft gdf jn)

/-- The per-record greendex of `calculate_greendex` (source lines
354-356): `area_y / area_x`, NaN filled with 0, rounded to 4 decimal
places. -/
def greendexVal (r : Row) : PFloat :=
  PFloat.round4 (PFloat.fillna0 ((r.get "area_y").div (r.get "area_x")))

/-- The per-record weight of `calculate_greendex` (source lines 358-361)
given the column-wide length minimum and maximum: normalised length times
inverted greendex, rounded to 4 decimal places. -/
def weightVal (lmin lmax : PFloat) (r : Row) : PFloat :=
  PFloat.round4
    ((((r.get "length").sub lmin).div (lmax.sub lmin)).mul
      ((PFloat.fin 1).sub (greendexVal r)))

/-- Embedding of `calculate_greendex` (source lines 334-363).  The source
assigns the `greendex` column (ratio, fillna, round) and then the `weight`
column (normalised length times inverted greendex, round); every assigned
cell depends only on its own record and on the column-wide length minimum
and maximum, so the column assignments are expressed record-wise.  The
source assigns the columns directly on the argument frame (no copy). -/
def calculate_greendex (gdf : Table) : Table :=
  let lmin := seriesMin (gdf.rows.map (fun r => r.get "length"))
  let lmax := seriesMax (gdf.rows.map (fun r => r.get "length"))
  { gdf with
    cols := addCol (addCol gdf.cols "greendex") "weight",
    rows := gdf.rows.map (fun r =>
      (r.set "greendex" (greendexVal r)).set "weight" (weightVal lmin lmax r)) }

/-!
State-passing views of the stage calls.  A Python call can mutate the
object the caller passed in, so each stage is also given as a function
returning the caller's view of the argument after the call alongside the
returned value.  `buffer_vector`, `calculate_area` and `join_by_attribute`
copy before modifying (`gdf.copy()` on source lines 243 and 305, a fresh
frame from `merge` on line 331), so they hand the argument back unchanged;
`calculate_greendex` assigns its new columns directly on the argument
(lines 354-361), so after the call the caller holds the mutated table. -/

/-- Call view of `buffer_vector`: the argument is unchanged. -/
def buffer_vector_call (gdf : Table) (distance : ℚ) : Table × Except GeomErr Table :=
  (gdf, buffer_vector gdf distance)

/-- Call view of `calculate_area`: the argument is unchanged. -/
def calculate_area_call (gdf : Table) : Table × Except GeomErr Table :=
  (gdf, calculate_area gdf)

/-- Call view of `join_by_attribute`: both arguments are unchanged. -/
def join_by_attribute_call (gdf jn : Table) : (Table × Table) × Except GeomErr Table :=
  ((gdf, jn), join_by_attribute gdf jn)

/-- Call view of `calculate_greendex`: the caller's table after the call
is the mutated table, which is also the returned value. -/
def calculate_greendex_call (gdf : Table) : Table × Table :=
  (calculate_greendex gdf, calculate_greendex gdf)

/-- Web Mercator bounding box (source lines 20-29 of
`src/utils/geometry.py`). -/
structure BoundingBoxMercator where
  xmin : ℚ
  ymin : ℚ
  xmax : ℚ
  ymax : ℚ
deriving DecidableEq, Repr

/-- The two `ValueError` cases of `tile_calculator`, each carrying the
computed pixel dimensions its message reports. -/
inductive TileErr where
  | tooSmall (width height : ℤ)
  | tooLarge (width height : ℤ)
deriving DecidableEq, Repr

/-- Embedding of `tile_calculator` (source lines 58-92): the pixel
dimensions are the rounded quotients of the bounding-box extents by the
resolution (the Python `round` builtin rounds half to even), rejected when
a dimension falls below 1 or exceeds 2500. -/
def tile_calculator (bbox : BoundingBoxMercator) (resolution : ℚ) : Except TileErr (ℤ × ℤ) :=
  let width := rhe ((bbox.xmax - bbox.xmin) / resolution)
  let height := rhe ((bbox.ymax - bbox.ymin) / resolution)
  if width < 1 ∨ height < 1 then .error (.tooSmall width height)
  else if width > 2500 ∨ height > 2500 then .error (.tooLarge width height)
  else .ok (width, height)

/-- One record of the edge table consumed by `GreenRouting.create_graph`
(source lines 41-52 of `src/green_routing.py`): endpoint node identifiers
`u` and `v` plus the `weight` and `length` attributes loaded into the
graph; `gid` is the record's row identity (its geometry row), letting two
records that agree on every attribute stay distinct. -/
structure EdgeRec where
  gid : ℕ
  u : ℤ
  v : ℤ
  weight : PFloat
  length : PFloat
deriving DecidableEq, Repr

/-- The adjacency data of the networkx `DiGraph`: an association list from
the ordered pair `(u, v)` to the edge's `(weight, length)` attributes. -/
abbrev Adj : Type := List ((ℤ × ℤ) × (PFloat × PFloat))

/-- Model of `DiGraph.add_edge(u, v, weight=…, length=…)`: when the ordered
pair is already present its attributes are overwritten in place, otherwise
the arc is appended; no reverse arc is touched. -/
def addEdge (g : Adj) (k : ℤ × ℤ) (a : PFloat × PFloat) : Adj :=
  match g with
  | [] => [(k, a)]
  | (k', a') :: rest =>
      if k' = k then (k, a) :: rest else (k', a') :: addEdge rest k a

/-- Looking an ordered pair up in the adjacency data. -/
def lookupEdge (g : Adj) (k : ℤ × ℤ) : Option (PFloat × PFloat) :=
  match g with
  | [] => none
  | (k', a) :: rest => if k' = k then some a else lookupEdge rest k

/-- Embedding of the edge-loading loop of `GreenRouting.create_graph`
(source lines 44-50): fold over the edge records in table order, adding
one directed arc per record.  The node-loading loop only registers vertex
coordinates and is not needed by any claim. -/
def create_graph (edges : List EdgeRec) : Adj :=
  edges.foldl (fun g e => addEdge g (e.u, e.v) (e.weight, e.length)) []

/-- Embedding of `GreenRouting.create_edgepairs` (source lines 75-84):
`zip(path[:-1], path[1:])`. -/
def create_edgepairs (path : List ℤ) : List (ℤ × ℤ) :=
  path.zip path.tail

/-- The pandas selection
`edges[(edges[u] == u) & (edges[v] == v)]` followed by `.iloc[0]`: the
first record matching the ordered pair, if any. -/
def findEdge (edges : List EdgeRec) (u v : ℤ) : Option EdgeRec :=
  edges.find? (fun e => e.u = u && e.v = v)

/-- Embedding of `GreenRouting.retrieve_edges` (source lines 86-98): walk
the pairs in order appending the first matching record of each; when a
pair has no matching record, `.iloc[0]` on the empty selection raises a
pandas `IndexError` whose fixed message carries no information about the
pair, modelled as `Except Unit`. -/
def retrieve_edges (edges : List EdgeRec) : List (ℤ × ℤ) → Except Unit (List EdgeRec)
  | [] => .ok []
  | (u, v) :: rest =>
      match findEdge edges u v with
      | none => .error ()
      | some e => (retrieve_edges edges rest).map (fun l => e :: l)

/-- The pure arithmetic of one weight cell (source lines 358-361):
normalised length times inverted greendex, rounded; `weightVal` computes
exactly this on finite cells (`weightVal_eq_weightFormula` below). -/
def weightFormula (l g lmin lmax : ℚ) : ℚ :=
  round4Q ((l - lmin) / (lmax - lmin) * (1 - g))

/-- The table an error of `clipping_vectors` blames. -/
def tableOf (inp msk : Table) : WhichTable → Table
  | .input => inp
  | .mask => msk

/-!
Concrete fixtures used by witnesses and counterexamples.
-/

/-- A valid non-null geometry. -/
def geomOk : Geometry :=
  { isNull := false, isValid := true, shape := 0, area := .fin 1 }

/-- A null geometry cell (a `None` entry of the geometry column). -/
def geomNull : Geometry :=
  { isNull := true, isValid := false, shape := 1, area := .nan }

/-- A non-null but invalid geometry (for instance a self-intersecting
polygon). -/
def geomBad : Geometry :=
  { isNull := false, isValid := false, shape := 2, area := .fin 1 }

/-- One-row edge table whose buffer area `area_x` is zero while the
overlap area `area_y` is positive. -/
def tblZeroBuffer : Table :=
  { crs := 0, cols := ["area_x", "area_y", "length"],
    rows := [ { geometry := geomOk,
                attrs := [("area_x", .fin 0), ("area_y", .fin 1), ("length", .fin 1)] } ] }

/-- The row of a small ordinary edge table. -/
def rowOrdinary : Row :=
  { geometry := geomOk,
    attrs := [("area_x", .fin 10), ("area_y", .fin 5), ("length", .fin 3)] }

/-- A small ordinary edge table: positive buffer area, overlap no larger
than the buffer. -/
def tblOrdinary : Table :=
  { crs := 0, cols := ["area_x", "area_y", "length"],
    rows := [ rowOrdinary,
              { geometry := geomOk,
                attrs := [("area_x", .fin 10), ("area_y", .fin 0), ("length", .fin 7)] } ] }

/-- Edge table on which every record has the same length, so that the
length normalisation divides zero by zero. -/
def tblEqualLengths : Table :=
  { crs := 0, cols := ["area_x", "area_y", "length"],
    rows := [ { geometry := geomOk,
                attrs := [("area_x", .fin 10), ("area_y", .fin 5), ("length", .fin 5)] },
              { geometry := geomOk,
                attrs := [("area_x", .fin 10), ("area_y", .fin 0), ("length", .fin 5)] } ] }

/-- Edge table whose records all carry greendex 2 (overlap area twice the
buffer area) and lengths 0, 1, 2: the middle record differs from the first
only by a longer length, the table minimum and maximum are pinned by the
first and last records. -/
def tblGreendexTwo : Table :=
  { crs := 0, cols := ["area_x", "area_y", "length"],
    rows := [ { geometry := geomOk,
                attrs := [("area_x", .fin 1), ("area_y", .fin 2), ("length", .fin 0)] },
              { geometry := geomOk,
                attrs := [("area_x", .fin 1), ("area_y", .fin 2), ("length", .fin 1)] },
              { geometry := geomOk,
                attrs := [("area_x", .fin 1), ("area_y", .fin 2), ("length", .fin 2)] } ] }

/-- A one-row table with a valid geometry, CRS tag 0. -/
def tblPlain : Table :=
  { crs := 0, cols := [], rows := [{ geometry := geomOk, attrs := [] }] }

/-- A table in a different CRS (tag 1). -/
def tblOtherCrs : Table :=
  { crs := 1, cols := [], rows := [{ geometry := geomOk, attrs := [] }] }

/-- An empty table in CRS 0. -/
def tblEmpty : Table :=
  { crs := 0, cols := [], rows := [] }

/-- A one-row table whose geometry is invalid, CRS 0. -/
def tblInvalidGeom : Table :=
  { crs := 0, cols := [], rows := [{ geometry := geomBad, attrs := [] }] }

/-- A one-row table whose geometry is null, CRS 0. -/
def tblNullGeom : Table :=
  { crs := 0, cols := [], rows := [{ geometry := geomNull, attrs := [] }] }

/-- Edge records of a small routing graph: arcs 1→2 and 2→3. -/
def edge12 : EdgeRec := { gid := 0, u := 1, v := 2, weight := .fin 1, length := .fin 1 }

/-- Second record of the small routing graph. -/
def edge23 : EdgeRec := { gid := 1, u := 2, v := 3, weight := .fin 2, length := .fin 1 }

/-- The small edge table for the routing fixtures. -/
def edgesSmall : List EdgeRec := [edge12, edge23]

/-!
Theorems.  First the lemmas about rounding, cells and list plumbing shared
by several claims, then one theorem per claim (with its witness or
counterexample where required).
-/

theorem rhe_floor_le (q : ℚ) : ⌊q⌋ ≤ rhe q := by
  unfold rhe; split_ifs <;> omega

theorem rhe_le_floor_add_one (q : ℚ) : rhe q ≤ ⌊q⌋ + 1 := by
  unfold rhe; split_ifs <;> omega

theorem rhe_mono {a b : ℚ} (h : a ≤ b) : rhe a ≤ rhe b := by
  rcases lt_or_eq_of_le (Int.floor_mono h) with hf | hf
  · calc rhe a ≤ ⌊a⌋ + 1 := rhe_le_floor_add_one a
      _ ≤ ⌊b⌋ := by omega
      _ ≤ rhe b := rhe_floor_le b
  · unfold rhe
    rw [hf]
    split_ifs <;> first | omega | (exfalso; linarith)

theorem round4Q_mono {a b : ℚ} (h : a ≤ b) : round4Q a ≤ round4Q b := by
  unfold round4Q
  have h1 : a * 10000 ≤ b * 10000 := by linarith
  have h2 : (rhe (a * 10000) : ℚ) ≤ (rhe (b * 10000) : ℚ) := by
    exact_mod_cast rhe_mono h1
  have hpos : (0 : ℚ) < 10000 := by norm_num
  exact (div_le_div_iff_of_pos_right hpos).mpr h2

/-- C10: for every Web Mercator bounding box and positive resolution, when
`tile_calculator` returns `(width, height)` the dimensions are the rounded
quotients of the box extents by the resolution and both lie between 1 and
2500 pixels; every other outcome is an error, so a dimension below 1 or
above 2500 pixels is never returned. -/
theorem tile_calculator_ok_bounds (bbox : BoundingBoxMercator) (resolution : ℚ)
    (w h : ℤ) (_hres : 0 < resolution)
    (hok : tile_calculator bbox resolution = .ok (w, h)) :
    w = rhe ((bbox.xmax - bbox.xmin) / resolution) ∧
    h = rhe ((bbox.ymax - bbox.ymin) / resolution) ∧
    1 ≤ w ∧ w ≤ 2500 ∧ 1 ≤ h ∧ h ≤ 2500 := by
  unfold tile_calculator at hok
  set W := rhe ((bbox.xmax - bbox.xmin) / resolution) with hW
  set H := rhe ((bbox.ymax - bbox.ymin) / resolution) with hH
  by_cases h1 : W < 1 ∨ H < 1
  · simp only [h1, if_true] at hok
    exact absurd hok (by simp)
  · by_cases h2 : W > 2500 ∨ H > 2500
    · simp only [h1, h2, if_false, if_true] at hok
      exact absurd hok (by simp)
    · simp only [h1, h2, if_false] at hok
      have hwh : W = w ∧ H = h := by
        have := Except.ok.inj hok
        exact ⟨congrArg Prod.fst this, congrArg Prod.snd this⟩
      push_neg at h1 h2
      refine ⟨hwh.1.symm, hwh.2.symm, ?_, ?_, ?_, ?_⟩ <;> omega

/-- Witness for `tile_calculator_ok_bounds` at a 10 by 10 unit box with a
resolution of 1 unit per pixel. -/
theorem tile_calculator_ok_bounds_witness :
    (0 : ℚ) < 1 ∧
    tile_calculator ⟨0, 0, 10, 10⟩ 1 = .ok (10, 10) ∧
    ((10 : ℤ) = rhe ((10 - 0) / 1) ∧ (10 : ℤ) = rhe ((10 - 0) / 1) ∧
      1 ≤ (10 : ℤ) ∧ (10 : ℤ) ≤ 2500 ∧ 1 ≤ (10 : ℤ) ∧ (10 : ℤ) ≤ 2500) :=
  ⟨by norm_num, rfl, tile_calculator_ok_bounds ⟨0, 0, 10, 10⟩ 1 10 10 (by norm_num) rfl⟩

theorem allNotNull_eq_false {rows : List Row} (r : Row) (hr : r ∈ rows)
    (hnull : r.geometry.isNull = true) : allNotNull rows = false := by
  unfold allNotNull
  rw [List.all_eq_false]
  exact ⟨r, hr, by simp [hnull]⟩

theorem allValid_eq_false {rows : List Row} (r : Row) (hr : r ∈ rows)
    (hbad : r.geometry.isValid = false) : allValid rows = false := by
  unfold allValid
  rw [List.all_eq_false]
  exact ⟨r, hr, by simp [hbad]⟩

theorem exists_null_of_allNotNull_eq_false {rows : List Row}
    (h : allNotNull rows = false) : ∃ r ∈ rows, r.geometry.isNull = true := by
  unfold allNotNull at h
  rw [List.all_eq_false] at h
  obtain ⟨r, hr, hp⟩ := h
  exact ⟨r, hr, by simpa using hp⟩

theorem exists_invalid_of_allValid_eq_false {rows : List Row}
    (h : allValid rows = false) : ∃ r ∈ rows, r.geometry.isValid = false := by
  unfold allValid at h
  rw [List.all_eq_false] at h
  obtain ⟨r, hr, hp⟩ := h
  exact ⟨r, hr, by simpa using hp⟩

theorem isEmpty_eq_false_of_mem {rows : List Row} (r : Row) (hr : r ∈ rows) :
    rows.isEmpty = false := by
  cases rows with
  | nil => cases hr
  | cons a l => rfl

/-- C6: `buffer_vector` rejects any non-positive distance with the invalid
parameter error no matter the table (empty included); with a positive
distance an empty table is returned unchanged as a non-error result, a
table containing a null geometry fails with the null-geometries error, and
a table whose geometries are non-null but not all valid fails with the
invalid-geometries error. -/
theorem buffer_vector_contract (gdf : Table) (d : ℚ) :
    (d ≤ 0 → buffer_vector gdf d = .error .invalidParameter) ∧
    (0 < d → gdf.rows = [] → buffer_vector gdf d = .ok gdf) ∧
    (0 < d → (∃ r ∈ gdf.rows, r.geometry.isNull = true) →
      buffer_vector gdf d = .error (.nullGeometries .input)) ∧
    (0 < d → allNotNull gdf.rows = true →
      (∃ r ∈ gdf.rows, r.geometry.isValid = false) →
      buffer_vector gdf d = .error (.invalidGeometries .input)) := by
  refine ⟨?_, ?_, ?_, ?_⟩
  · intro hd
    unfold buffer_vector
    rw [if_pos hd]
  · intro hd hrows
    unfold buffer_vector
    rw [if_neg (not_le.mpr hd), if_pos (by simp [hrows])]
  · rintro hd ⟨r, hr, hnull⟩
    unfold buffer_vector
    rw [if_neg (not_le.mpr hd), if_neg (by simp [isEmpty_eq_false_of_mem r hr]),
      if_pos (by simp [allNotNull_eq_false r hr hnull])]
  · rintro hd hnn ⟨r, hr, hbad⟩
    unfold buffer_vector
    rw [if_neg (not_le.mpr hd), if_neg (by simp [isEmpty_eq_false_of_mem r hr]),
      if_neg (by simp [hnn]), if_pos (by simp [allValid_eq_false r hr hbad])]

/-- Witness for `buffer_vector_contract`: the zero distance is rejected on
a one-row table, distance 1 returns the empty table unchanged, and
distance 1 fails on a table with a null geometry and on one with an
invalid geometry. -/
theorem buffer_vector_contract_witness :
    ((0 : ℚ) ≤ 0 ∧ buffer_vector tblPlain 0 = .error .invalidParameter) ∧
    ((0 : ℚ) < 1 ∧ tblEmpty.rows = [] ∧ buffer_vector tblEmpty 1 = .ok tblEmpty) ∧
    (buffer_vector tblNullGeom 1 = .error (.nullGeometries .input)) ∧
    (buffer_vector tblInvalidGeom 1 = .error (.invalidGeometries .input)) :=
  ⟨⟨le_refl 0, (buffer_vector_contract tblPlain 0).1 (le_refl 0)⟩,
   ⟨by norm_num, rfl, (buffer_vector_contract tblEmpty 1).2.1 (by norm_num) rfl⟩,
   (buffer_vector_contract tblNullGeom 1).2.2.1 (by norm_num)
     ⟨{ geometry := geomNull, attrs := [] }, by decide, by decide⟩,
   (buffer_vector_contract tblInvalidGeom 1).2.2.2 (by norm_num) (by decide)
     ⟨{ geometry := geomBad, attrs := [] }, by decide, by decide⟩⟩

/-- C2: on a table whose records all have the same length (minimum equals
maximum), the length normalisation of `calculate_greendex` divides zero by
zero and the resulting NaN propagates into every record's weight; no
fallback value is substituted.  Evaluated on the two-record table with
both lengths 5: both weights come out NaN, not 0. -/
theorem calculate_greendex_equal_lengths_nan :
    (tblEqualLengths.rows.map (fun r => r.get "length") = [.fin 5, .fin 5]) ∧
    ((calculate_greendex tblEqualLengths).rows.map (fun r => r.get "weight")
      = [PFloat.nan, PFloat.nan]) := by
  constructor
  · decide
  · decide

/-- Counterexample for C4: `calculate_greendex` assigns its new columns
directly on the frame the caller passed in, so after the call the caller's
table is no longer the table it held before the call. -/
theorem calculate_greendex_call_mutates :
    (calculate_greendex_call tblOrdinary).1 ≠ tblOrdinary := by
  decide

/-- C4 (amended): `buffer_vector`, `calculate_area` and
`join_by_attribute` leave the caller's argument tables unchanged, returning
fresh tables; `calculate_greendex` instead mutates the caller's table in
place, so after the call the caller holds exactly the returned table with
the greendex and weight columns added. -/
theorem stage_calls_argument_mutation (t tj : Table) (d : ℚ) :
    (buffer_vector_call t d).1 = t ∧
    (calculate_area_call t).1 = t ∧
    (join_by_attribute_call t tj).1 = (t, tj) ∧
    (calculate_greendex_call t).1 = calculate_greendex t :=
  ⟨rfl, rfl, rfl, rfl⟩

/-- Counterexample for C3: on the table whose records all carry greendex 2
and lengths 0, 1, 2, increasing the length of the first record from 0 to 1
(compare record 0 with record 1; greendex fixed at 2, table minimum 0 and
maximum 2 unchanged) strictly decreases the weight from 0 to -0.5, because
the inverted greendex `1 - 2` is negative. -/
theorem weight_not_monotone_in_length :
    ((calculate_greendex tblGreendexTwo).rows.map (fun r => r.get "greendex")
      = [.fin 2, .fin 2, .fin 2]) ∧
    ((calculate_greendex tblGreendexTwo).rows.map (fun r => r.get "weight")
      = [.fin 0, .fin (-(1/2)), .fin (-1)]) ∧
    (-(1/2) : ℚ) < 0 := by
  refine ⟨by decide, by decide, by norm_num⟩

/-- The weight cell computed by `weightVal` on finite cells is the pure
formula `weightFormula` of the source arithmetic, provided the length
range is non-degenerate. -/
theorem weightVal_eq_weightFormula (r : Row) (l g lmin lmax : ℚ)
    (hl : r.get "length" = .fin l) (hg : greendexVal r = .fin g)
    (hlm : lmin ≠ lmax) :
    weightVal (.fin lmin) (.fin lmax) r = .fin (weightFormula l g lmin lmax) := by
  have hd : lmax - lmin ≠ 0 := fun hc => hlm (by linarith)
  unfold weightVal weightFormula
  rw [hl, hg]
  simp [PFloat.sub, PFloat.div, PFloat.mul, hd, PFloat.round4]

/-- C3 (amended): with the inverted greendex nonnegative (greendex at most
1), increasing a record's length within an unchanged length range never
decreases its weight; and with the record's length at least the table
minimum, increasing the greendex never increases the weight.  The
counterexample `weight_not_monotone_in_length` shows the first part fails
without the greendex bound. -/
theorem weightFormula_monotone (l l2 g g2 lmin lmax : ℚ) :
    (lmin < lmax → lmin ≤ l → l ≤ l2 → l2 ≤ lmax → g ≤ 1 →
      weightFormula l g lmin lmax ≤ weightFormula l2 g lmin lmax) ∧
    (lmin < lmax → lmin ≤ l → g ≤ g2 →
      weightFormula l g2 lmin lmax ≤ weightFormula l g lmin lmax) := by
  constructor
  · intro hrange hl1 hl2 _hl3 hg
    have hd : (0 : ℚ) < lmax - lmin := by linarith
    have h1 : (l - lmin) / (lmax - lmin) ≤ (l2 - lmin) / (lmax - lmin) :=
      (div_le_div_iff_of_pos_right hd).mpr (by linarith)
    exact round4Q_mono (mul_le_mul_of_nonneg_right h1 (by linarith))
  · intro hrange hl1 hg
    have hd : (0 : ℚ) < lmax - lmin := by linarith
    have hx : (0 : ℚ) ≤ (l - lmin) / (lmax - lmin) :=
      div_nonneg (by linarith) (le_of_lt hd)
    exact round4Q_mono (mul_le_mul_of_nonneg_left (by linarith) hx)

/-- Witness for `weightFormula_monotone` on the length range 0..1:
raising the length from 0 to 1 at greendex 0 raises the weight from 0 to
1, and raising the greendex from 0 to 1 at length 0 keeps the weight at
0. -/
theorem weightFormula_monotone_witness :
    ((0 : ℚ) < 1 ∧ (0 : ℚ) ≤ 0 ∧ (0 : ℚ) ≤ 1 ∧ (1 : ℚ) ≤ 1 ∧ (0 : ℚ) ≤ 1) ∧
    weightFormula 0 0 0 1 ≤ weightFormula 1 0 0 1 ∧
    weightFormula 0 1 0 1 ≤ weightFormula 0 0 0 1 :=
  ⟨⟨by norm_num, by norm_num, by norm_num, by norm_num, by norm_num⟩,
   (weightFormula_monotone 0 1 0 0 0 1).1 (by norm_num) (by norm_num)
     (by norm_num) (by norm_num) (by norm_num),
   (weightFormula_monotone 0 1 0 1 0 1).2 (by norm_num) (by norm_num) (by norm_num)⟩

theorem find?_setPairs_same (l : List (String × PFloat)) (k : String) (v : PFloat) :
    (setPairs l k v).find? (fun p => p.1 = k) = some (k, v) := by
  induction l with
  | nil => simp [setPairs]
  | cons hd t ih =>
      obtain ⟨k1, v1⟩ := hd
      by_cases h : k1 = k
      · simp [setPairs, h]
      · simp [setPairs, h, List.find?, ih]

theorem find?_setPairs_ne (l : List (String × PFloat)) (k k2 : String) (v : PFloat)
    (h : k2 ≠ k) :
    (setPairs l k v).find? (fun p => p.1 = k2) = l.find? (fun p => p.1 = k2) := by
  induction l with
  | nil => simp [setPairs, List.find?, Ne.symm h]
  | cons hd t ih =>
      obtain ⟨k1, v1⟩ := hd
      by_cases h1 : k1 = k
      · subst h1
        simp [setPairs, List.find?, Ne.symm h]
      · by_cases h2 : k1 = k2
        · simp [setPairs, h1, List.find?, h2, h]
        · simp [setPairs, h1, List.find?, h2, ih]

theorem Row.get_set_same (r : Row) (k : String) (v : PFloat) :
    (r.set k v).get k = v := by
  unfold Row.get Row.set
  simp [find?_setPairs_same]

theorem Row.get_set_ne (r : Row) (k k2 : String) (v : PFloat) (h : k2 ≠ k) :
    (r.set k v).get k2 = r.get k2 := by
  unfold Row.get Row.set
  simp [find?_setPairs_ne _ _ _ _ h]

theorem round4Q_zero : round4Q 0 = 0 := by decide

/-- C1 (amended): every record of the table produced by
`calculate_greendex` carries in its greendex cell the value `greendexVal`
of its input record, and that value is `area_y / area_x` rounded to 4
decimal places whenever the buffer area is a nonzero finite number; the
NaN outcomes — an undefined `area_y` from a missing join, or the zero by
zero division when both areas are zero — are replaced with exactly 0; but
a positive `area_y` over a zero buffer area yields plus infinity, which
the fill step does not replace. -/
theorem calculate_greendex_cell (gdf : Table) (r : Row) (hr : r ∈ gdf.rows) :
    (∃ r2 ∈ (calculate_greendex gdf).rows, r2.get "greendex" = greendexVal r) ∧
    (∀ A B : ℚ, r.get "area_x" = .fin A → r.get "area_y" = .fin B → A ≠ 0 →
      greendexVal r = .fin (round4Q (B / A))) ∧
    (r.get "area_y" = .nan → greendexVal r = .fin 0) ∧
    (r.get "area_x" = .fin 0 → r.get "area_y" = .fin 0 → greendexVal r = .fin 0) ∧
    (∀ B : ℚ, r.get "area_x" = .fin 0 → r.get "area_y" = .fin B → 0 < B →
      greendexVal r = .pinf) := by
  refine ⟨?_, ?_, ?_, ?_, ?_⟩
  · refine ⟨(r.set "greendex" (greendexVal r)).set "weight"
      (weightVal (seriesMin (gdf.rows.map (fun x => x.get "length")))
        (seriesMax (gdf.rows.map (fun x => x.get "length"))) r), ?_, ?_⟩
    · simp only [calculate_greendex]
      exact List.mem_map_of_mem _ hr
    · rw [Row.get_set_ne _ _ _ _ (by decide), Row.get_set_same]
  · intro A B hA hB hA0
    unfold greendexVal
    rw [hA, hB]
    simp [PFloat.div, hA0, PFloat.fillna0, PFloat.round4]
  · intro hB
    unfold greendexVal
    rw [hB]
    simp [PFloat.div, PFloat.fillna0, PFloat.round4, round4Q_zero]
  · intro hA hB
    unfold greendexVal
    rw [hA, hB]
    simp [PFloat.div, PFloat.fillna0, PFloat.round4, round4Q_zero]
  · intro B hA hB hBpos
    unfold greendexVal
    rw [hA, hB]
    simp [PFloat.div, hBpos, PFloat.fillna0, PFloat.round4]

/-- Counterexample for C1: a record with buffer area `area_x = 0` and
overlap `area_y = 1` gets greendex plus infinity — division by a zero
buffer area is not replaced with 0, because `fillna(0)` only replaces NaN
and `1 / 0` is infinite, not NaN. -/
theorem greendex_zero_buffer_not_zero :
    ((calculate_greendex tblZeroBuffer).rows.map (fun r => r.get "greendex")
      = [PFloat.pinf]) ∧
    PFloat.pinf ≠ PFloat.fin 0 :=
  ⟨by decide, by decide⟩

/-- Witness for `calculate_greendex_cell` on the ordinary table: the first
record has areas 10 and 5, and its greendex is `round4Q (5 / 10)`. -/
theorem calculate_greendex_cell_witness :
    rowOrdinary ∈ tblOrdinary.rows ∧
    rowOrdinary.get "area_x" = .fin 10 ∧
    rowOrdinary.get "area_y" = .fin 5 ∧
    (10 : ℚ) ≠ 0 ∧
    greendexVal rowOrdinary = .fin (round4Q (5 / 10)) ∧
    (∃ r2 ∈ (calculate_greendex tblOrdinary).rows,
      r2.get "greendex" = greendexVal rowOrdinary) :=
  ⟨by decide, by decide, by decide, by norm_num,
   (calculate_greendex_cell tblOrdinary rowOrdinary (by decide)).2.1 10 5
     (by decide) (by decide) (by norm_num),
   (calculate_greendex_cell tblOrdinary rowOrdinary (by decide)).1⟩

theorem setPairs_setPairs (l : List (String × PFloat)) (k : String) (v w : PFloat) :
    setPairs (setPairs l k v) k w = setPairs l k w := by
  induction l with
  | nil => simp [setPairs]
  | cons hd t ih =>
      obtain ⟨k1, v1⟩ := hd
      by_cases h : k1 = k
      · simp [setPairs, h]
      · simp [setPairs, h, ih]

theorem Row.set_set (r : Row) (k : String) (v w : PFloat) :
    (r.set k v).set k w = r.set k w := by
  unfold Row.set
  simp [setPairs_setPairs]

theorem setIds_map_get (n : ℕ) (rs : List Row) :
    (setIds n rs).map (fun r => r.get "id")
      = (List.range' n rs.length).map (fun i => PFloat.fin (i : ℚ)) := by
  induction rs generalizing n with
  | nil => simp [setIds]
  | cons r t ih => simp [setIds, List.range'_succ, Row.get_set_same, ih]

theorem setIds_length (n : ℕ) (rs : List Row) :
    (setIds n rs).length = rs.length := by
  induction rs generalizing n with
  | nil => rfl
  | cons r t ih => simp [setIds, ih]

theorem setIds_setIds (n : ℕ) (rs : List Row) :
    setIds n (setIds n rs) = setIds n rs := by
  induction rs generalizing n with
  | nil => rfl
  | cons r t ih => simp [setIds, Row.set_set, ih]

theorem mem_addCol_self (cols : List String) (k : String) : k ∈ addCol cols k := by
  unfold addCol
  by_cases h : k ∈ cols
  · simp [h]
  · simp [h]

theorem addCol_addCol (cols : List String) (k : String) :
    addCol (addCol cols k) k = addCol cols k := by
  unfold addCol
  by_cases h : k ∈ cols <;> simp [h]

/-- C8: `add_id` fills the id column with exactly the integers 1..N in the
table's existing row order, whatever id column existed before (the cell is
overwritten), keeps the number of records, and is idempotent: applying it
twice gives the same table as applying it once. -/
theorem add_id_ids (gdf : Table) :
    ((add_id gdf).rows.map (fun r => r.get "id")
      = (List.range' 1 gdf.rows.length).map (fun i => PFloat.fin (i : ℚ))) ∧
    (add_id gdf).rows.length = gdf.rows.length ∧
    add_id (add_id gdf) = add_id gdf := by
  refine ⟨setIds_map_get 1 gdf.rows, setIds_length 1 gdf.rows, ?_⟩
  unfold add_id
  simp [addCol_addCol, setIds_setIds, setIds_length]

theorem retrieve_edges_ok (edges : List EdgeRec) :
    ∀ pairs : List (ℤ × ℤ),
      (∀ p ∈ pairs, (findEdge edges p.1 p.2).isSome = true) →
      retrieve_edges edges pairs
        = .ok (pairs.filterMap (fun p => findEdge edges p.1 p.2)) := by
  intro pairs
  induction pairs with
  | nil => intro _; rfl
  | cons p rest ih =>
      intro h
      obtain ⟨u, v⟩ := p
      have hp := h (u, v) (List.mem_cons_self _ _)
      obtain ⟨e, he⟩ := Option.isSome_iff_exists.mp hp
      have hrest := ih (fun q hq => h q (List.mem_cons_of_mem _ hq))
      simp [retrieve_edges, he, hrest, List.filterMap_cons, Except.map]

theorem retrieve_edges_error (edges : List EdgeRec) :
    ∀ pairs : List (ℤ × ℤ),
      (∃ p ∈ pairs, findEdge edges p.1 p.2 = none) →
      retrieve_edges edges pairs = .error () := by
  intro pairs
  induction pairs with
  | nil => rintro ⟨p, hp, -⟩; cases hp
  | cons q rest ih =>
      rintro ⟨p, hp, hnone⟩
      obtain ⟨u, v⟩ := q
      rcases List.mem_cons.mp hp with heq | hmem
      · subst heq
        simp [retrieve_edges, hnone]
      · cases hfind : findEdge edges u v with
        | none => simp [retrieve_edges, hfind]
        | some e => simp [retrieve_edges, hfind, ih ⟨p, hmem, hnone⟩, Except.map]

theorem filterMap_length_of_isSome {α β : Type} (f : α → Option β) :
    ∀ l : List α, (∀ x ∈ l, (f x).isSome = true) →
      (l.filterMap f).length = l.length := by
  intro l
  induction l with
  | nil => intro _; rfl
  | cons x t ih =>
      intro h
      obtain ⟨y, hy⟩ := Option.isSome_iff_exists.mp (h x (List.mem_cons_self _ _))
      simp [List.filterMap_cons, hy, ih (fun z hz => h z (List.mem_cons_of_mem _ hz))]

/-- C5 (amended): a path of k+1 nodes yields exactly k consecutive pairs;
when every pair has a matching edge record, `retrieve_edges` returns
exactly the k first-matching records in path order; and as soon as some
pair has no matching record the whole call fails — a missing pair is never
silently skipped.  The failure, however, is the bare index error of
`.iloc[0]` on an empty selection, which carries no information about the
offending pair (see `retrieve_edges_error_uninformative`). -/
theorem retrieve_edges_contract (edges : List EdgeRec) (path : List ℤ) :
    (create_edgepairs path).length = path.length - 1 ∧
    ((∀ p ∈ create_edgepairs path, (findEdge edges p.1 p.2).isSome = true) →
      retrieve_edges edges (create_edgepairs path)
        = .ok ((create_edgepairs path).filterMap (fun p => findEdge edges p.1 p.2)) ∧
      ((create_edgepairs path).filterMap (fun p => findEdge edges p.1 p.2)).length
        = path.length - 1) ∧
    ((∃ p ∈ create_edgepairs path, findEdge edges p.1 p.2 = none) →
      retrieve_edges edges (create_edgepairs path) = .error ()) := by
  have hlen : (create_edgepairs path).length = path.length - 1 := by
    unfold create_edgepairs
    rw [List.length_zip, List.length_tail]
    omega
  refine ⟨hlen, ?_, retrieve_edges_error edges (create_edgepairs path)⟩
  intro h
  exact ⟨retrieve_edges_ok edges (create_edgepairs path) h,
    by rw [filterMap_length_of_isSome _ _ h]; exact hlen⟩

/-- Counterexample for C5: the error produced on a missing pair carries no
information about the pair — the failing calls for the missing pair (1, 2)
and for the entirely different missing pair (3, 4) raise the very same
error value, so the failure cannot cite the first missing pair. -/
theorem retrieve_edges_error_uninformative :
    retrieve_edges [] (create_edgepairs [1, 2]) = .error () ∧
    retrieve_edges [] (create_edgepairs [3, 4]) = .error () ∧
    retrieve_edges [] (create_edgepairs [1, 2])
      = retrieve_edges [] (create_edgepairs [3, 4]) :=
  ⟨rfl, rfl, rfl⟩

/-- Witness for `retrieve_edges_contract`: on the graph with arcs 1→2 and
2→3, the path 1, 2, 3 resolves to the two records in order, and the path
1, 5 with no matching record fails. -/
theorem retrieve_edges_contract_witness :
    (∀ p ∈ create_edgepairs [1, 2, 3], (findEdge edgesSmall p.1 p.2).isSome = true) ∧
    retrieve_edges edgesSmall (create_edgepairs [1, 2, 3]) = .ok [edge12, edge23] ∧
    (∃ p ∈ create_edgepairs [1, 5], findEdge edgesSmall p.1 p.2 = none) ∧
    retrieve_edges edgesSmall (create_edgepairs [1, 5]) = .error () := by
  refine ⟨by decide, ?_, ⟨((1 : ℤ), (5 : ℤ)), by decide, by decide⟩, ?_⟩
  · have h := ((retrieve_edges_contract edgesSmall [1, 2, 3]).2.1 (by decide)).1
    rw [h]; rfl
  · exact (retrieve_edges_contract edgesSmall [1, 5]).2.2
      ⟨((1 : ℤ), (5 : ℤ)), by decide, by decide⟩

/-- C7: `clipping_vectors` fails with the CRS mismatch error whenever the
two tables disagree on their CRS; with matching CRS, a valid input and an
empty mask it returns the empty table carrying the input's schema and CRS
rather than an error; and with matching CRS, whenever either table holds a
null or invalid geometry, it fails with a geometry error that blames a
table genuinely at fault. -/
theorem clipping_vectors_contract (inp msk : Table) :
    (inp.crs ≠ msk.crs → clipping_vectors inp msk = .error .crsMismatch) ∧
    (inp.crs = msk.crs → msk.rows = [] →
      allNotNull inp.rows = true → allValid inp.rows = true →
      clipping_vectors inp msk = .ok { crs := inp.crs, cols := inp.cols, rows := [] }) ∧
    (inp.crs = msk.crs →
      (∃ r ∈ inp.rows ++ msk.rows,
        r.geometry.isNull = true ∨ r.geometry.isValid = false) →
      ∃ w : WhichTable,
        (clipping_vectors inp msk = .error (.nullGeometries w) ∧
          ∃ r ∈ (tableOf inp msk w).rows, r.geometry.isNull = true) ∨
        (clipping_vectors inp msk = .error (.invalidGeometries w) ∧
          ∃ r ∈ (tableOf inp msk w).rows, r.geometry.isValid = false)) := by
  refine ⟨?_, ?_, ?_⟩
  · intro hne
    unfold clipping_vectors
    rw [if_pos hne]
  · intro hcrs hmask hnn hv
    unfold clipping_vectors
    rw [if_neg (by simp [hcrs]), if_neg (by simp [hnn]),
      if_neg (by simp [allNotNull, hmask]), if_neg (by simp [hv]),
      if_neg (by simp [allValid, hmask])]
    unfold gpdClip
    rw [if_pos (by simp [hmask])]
  · intro hcrs hbad
    unfold clipping_vectors
    rw [if_neg (by simp [hcrs])]
    cases hn1 : allNotNull inp.rows with
    | false =>
        refine ⟨.input, .inl ⟨by rw [if_pos (by simp)], ?_⟩⟩
        exact exists_null_of_allNotNull_eq_false hn1
    | true =>
        rw [if_neg (by simp [hn1])]
        cases hn2 : allNotNull msk.rows with
        | false =>
            refine ⟨.mask, .inl ⟨by rw [if_pos (by simp)], ?_⟩⟩
            exact exists_null_of_allNotNull_eq_false hn2
        | true =>
            rw [if_neg (by simp [hn2])]
            cases hv1 : allValid inp.rows with
            | false =>
                refine ⟨.input, .inr ⟨by rw [if_pos (by simp)], ?_⟩⟩
                exact exists_invalid_of_allValid_eq_false hv1
            | true =>
                rw [if_neg (by simp [hv1])]
                cases hv2 : allValid msk.rows with
                | false =>
                    refine ⟨.mask, .inr ⟨by rw [if_pos (by simp)], ?_⟩⟩
                    exact exists_invalid_of_allValid_eq_false hv2
                | true =>
                    exfalso
                    obtain ⟨r, hr, hcase⟩ := hbad
                    have hnull : r.geometry.isNull = false := by
                      rcases List.mem_append.mp hr with h | h
                      · have := List.all_eq_true.mp hn1 r h
                        simpa using this
                      · have := List.all_eq_true.mp hn2 r h
                        simpa using this
                    have hvalid : r.geometry.isValid = true := by
                      rcases List.mem_append.mp hr with h | h
                      · exact List.all_eq_true.mp hv1 r h
                      · exact List.all_eq_true.mp hv2 r h
                    rcases hcase with h | h
                    · rw [hnull] at h; cases h
                    · rw [hvalid] at h; cases h

/-- Witness for `clipping_vectors_contract`: a CRS mismatch on two
concrete tables is rejected, clipping the plain table with an empty mask
returns the empty same-schema table, and clipping the plain table with a
null-geometry mask is blamed on the mask. -/
theorem clipping_vectors_contract_witness :
    (tblPlain.crs ≠ tblOtherCrs.crs ∧
      clipping_vectors tblPlain tblOtherCrs = .error .crsMismatch) ∧
    (clipping_vectors tblPlain tblEmpty
      = .ok { crs := tblPlain.crs, cols := tblPlain.cols, rows := [] }) ∧
    (∃ w : WhichTable,
      (clipping_vectors tblPlain tblNullGeom = .error (.nullGeometries w) ∧
        ∃ r ∈ (tableOf tblPlain tblNullGeom w).rows, r.geometry.isNull = true) ∨
      (clipping_vectors tblPlain tblNullGeom = .error (.invalidGeometries w) ∧
        ∃ r ∈ (tableOf tblPlain tblNullGeom w).rows, r.geometry.isValid = false)) :=
  ⟨⟨by decide, (clipping_vectors_contract tblPlain tblOtherCrs).1 (by decide)⟩,
   (clipping_vectors_contract tblPlain tblEmpty).2.1 rfl rfl (by decide) (by decide),
   (clipping_vectors_contract tblPlain tblNullGeom).2.2 rfl
     ⟨{ geometry := geomNull, attrs := [] }, by decide, by decide⟩⟩

theorem lookupEdge_addEdge (g : Adj) (k k2 : ℤ × ℤ) (a : PFloat × PFloat) :
    lookupEdge (addEdge g k a) k2 = if k = k2 then some a else lookupEdge g k2 := by
  induction g with
  | nil => simp [addEdge, lookupEdge]
  | cons hd tl ih =>
      obtain ⟨k1, a1⟩ := hd
      by_cases h : k1 = k
      · subst h
        by_cases h2 : k1 = k2 <;> simp [addEdge, lookupEdge, h2]
      · by_cases h2 : k1 = k2
        · subst h2
          simp [addEdge, lookupEdge, h, Ne.symm h]
        · simp [addEdge, lookupEdge, h, h2, ih]

theorem lookupEdge_foldl (k : ℤ × ℤ) :
    ∀ (edges : List EdgeRec) (g : Adj),
      lookupEdge
        (edges.foldl (fun m e => addEdge m (e.u, e.v) (e.weight, e.length)) g) k
      = (match (edges.filter (fun e => decide ((e.u, e.v) = k))).getLast? with
          | some e => some (e.weight, e.length)
          | none => lookupEdge g k) := by
  intro edges
  induction edges with
  | nil => intro g; rfl
  | cons e rest ih =>
      intro g
      rw [List.foldl_cons, ih]
      by_cases hp : (e.u, e.v) = k
      · rw [List.filter_cons_of_pos (by simpa using hp)]
        cases hfl : rest.filter (fun e2 => decide ((e2.u, e2.v) = k)) with
        | nil => simp [lookupEdge_addEdge, hp]
        | cons y ys =>
            rw [List.getLast?_cons_cons]
            cases hx : (y :: ys).getLast? with
            | none => exact absurd (List.getLast?_eq_none_iff.mp hx) (by simp)
            | some x => rfl
      · rw [List.filter_cons_of_neg (by simpa using hp)]
        cases hfl : rest.filter (fun e2 => decide ((e2.u, e2.v) = k)) with
        | nil => simp [lookupEdge_addEdge, hp]
        | cons y ys =>
            cases hx : (y :: ys).getLast? with
            | none => exact absurd (List.getLast?_eq_none_iff.mp hx) (by simp)
            | some x => rfl

theorem mem_addEdge_keys (g : Adj) (k : ℤ × ℤ) (a : PFloat × PFloat) :
    ∀ q ∈ addEdge g k a, q.1 = k ∨ q ∈ g := by
  induction g with
  | nil =>
      intro q hq
      rcases List.mem_singleton.mp hq with rfl
      exact Or.inl rfl
  | cons hd tl ih =>
      obtain ⟨k1, a1⟩ := hd
      intro q hq
      by_cases h : k1 = k
      · rw [show addEdge ((k1, a1) :: tl) k a
            = if k1 = k then (k, a) :: tl else (k1, a1) :: addEdge tl k a from rfl,
          if_pos h] at hq
        rcases List.mem_cons.mp hq with rfl | hmem
        · exact Or.inl rfl
        · exact Or.inr (List.mem_cons_of_mem _ hmem)
      · rw [show addEdge ((k1, a1) :: tl) k a
            = if k1 = k then (k, a) :: tl else (k1, a1) :: addEdge tl k a from rfl,
          if_neg h] at hq
        rcases List.mem_cons.mp hq with rfl | hmem
        · exact Or.inr (List.mem_cons_self _ _)
        · rcases ih q hmem with hk | hin
          · exact Or.inl hk
          · exact Or.inr (List.mem_cons_of_mem _ hin)

theorem pairwise_addEdge (g : Adj) (k : ℤ × ℤ) (a : PFloat × PFloat)
    (h : List.Pairwise (fun p q => p.1 ≠ q.1) g) :
    List.Pairwise (fun p q => p.1 ≠ q.1) (addEdge g k a) := by
  induction g with
  | nil => simp [addEdge]
  | cons hd tl ih =>
      obtain ⟨k1, a1⟩ := hd
      have h1 := List.pairwise_cons.mp h
      by_cases hk : k1 = k
      · subst hk
        rw [show addEdge ((k1, a1) :: tl) k1 a
            = if k1 = k1 then (k1, a) :: tl else (k1, a1) :: addEdge tl k1 a from rfl,
          if_pos rfl]
        exact List.pairwise_cons.mpr ⟨h1.1, h1.2⟩
      · rw [show addEdge ((k1, a1) :: tl) k a
            = if k1 = k then (k, a) :: tl else (k1, a1) :: addEdge tl k a from rfl,
          if_neg hk]
        refine List.pairwise_cons.mpr ⟨?_, ih h1.2⟩
        intro q hq
        rcases mem_addEdge_keys tl k a q hq with hq1 | hq2
        · rw [hq1]; exact hk
        · exact h1.1 q hq2

theorem pairwise_foldl_addEdge :
    ∀ (edges : List EdgeRec) (g : Adj),
      List.Pairwise (fun p q => p.1 ≠ q.1) g →
      List.Pairwise (fun p q => p.1 ≠ q.1)
        (edges.foldl (fun m e => addEdge m (e.u, e.v) (e.weight, e.length)) g) := by
  intro edges
  induction edges with
  | nil => intro g hg; exact hg
  | cons e rest ih =>
      intro g hg
      rw [List.foldl_cons]
      exact ih _ (pairwise_addEdge g (e.u, e.v) (e.weight, e.length) hg)

/-- C9: the graph loaded by `create_graph` holds, for every ordered pair
`(a, b)`, exactly the attributes `(weight, length)` of the LAST edge
record with endpoints `u = a`, `v = b` in table order (none when no such
record exists — in particular no implicit reverse arc ever appears), and
its adjacency data never holds two arcs for the same ordered pair. -/
theorem create_graph_last_write_wins (edges : List EdgeRec) (a b : ℤ) :
    lookupEdge (create_graph edges) (a, b)
      = ((edges.filter (fun e => decide ((e.u, e.v) = (a, b)))).getLast?).map
          (fun e => (e.weight, e.length)) ∧
    List.Pairwise (fun p q => p.1 ≠ q.1) (create_graph edges) := by
  constructor
  · rw [create_graph, lookupEdge_foldl (a, b) edges []]
    cases hx : (edges.filter (fun e => decide ((e.u, e.v) = (a, b)))).getLast? with
    | none => rfl
    | some x => rfl
  · exact pairwise_foldl_addEdge edges [] (by simp)

end Ugr
